import Mathlib

/-!
Verification of the `fiducial_deconvolute` wrapper from
`halotools/empirical_models/AbundanceMatching/fiducial_deconv_wrapper.pyx`.

The wrapper validates that `smm` and `mf` have equal length, takes the
absolute value of the step, adds a uniform offset to `af_key` and `smm`
when their joint minimum is non-positive, calls the external C routine
`convolved_fit`, subtracts the offset again, and returns `smm`.

Arrays of 64-bit floats are embedded as `List Rat` (the claims about the
offset round-trip are stated over exact arithmetic).  The external C
routine is a parameter of the embedding: it is modelled as a pure function
on the record of arguments it receives, returning either the new contents
of `smm` (the routine communicates purely by mutating `smm` in place) or
an error; on error it is modelled as leaving `smm` as passed.
-/

namespace Halotools

/-- One invocation of the external `convolved_fit` routine, recording the
arguments in the order the wrapper passes them:
`(af_key, af_val, len(af_key), smm, mf, len(mf), scatter, repeat, sm_step)`. -/
structure FitCall where
  key : List Rat
  value : List Rat
  nAf : Nat
  smm : List Rat
  mf : List Rat
  nMf : Nat
  scatter : Rat
  rpt : Int
  step : Rat
deriving DecidableEq

/-- How a call to the wrapper ends: the `ValueError` raised on mismatched
lengths, numpy's `ValueError` when `.min()` is taken of an empty array, a
failure propagated from the external routine, or a normal return carrying
the returned `smm` contents. -/
inductive Outcome (ε : Type) where
  | invalidArgument
  | emptyMinError
  | fitFailure (e : ε)
  | ok (smm : List Rat)
deriving DecidableEq

/-- The observable result of one wrapper call: the final contents of the
caller-owned arrays, the list of external-routine invocations made, and
the outcome. -/
structure CallState (ε : Type) where
  key : List Rat
  value : List Rat
  smm : List Rat
  mf : List Rat
  calls : List FitCall
  outcome : Outcome ε
deriving DecidableEq

/-- `numpy.ndarray.min`: the minimum element of the array, `none` on the
empty array (where numpy raises `ValueError`). -/
def listMin : List Rat → Option Rat
  | [] => none
  | x :: xs => some (xs.foldl min x)

/-- Shallow embedding of `fiducial_deconvolute` from
`fiducial_deconv_wrapper.pyx`.  `fit` is the external `convolved_fit`
routine.  Mirrors the source line by line: length check, `sm_step =
np.fabs(sm_step)`, `sm_min = min(af_key.min(), smm.min())`, conditional
offset of `af_key` and `smm`, the external call, conditional reversal of
the offset, `return smm`. -/
def fiducial_deconvolute {ε : Type} (fit : FitCall → Except ε (List Rat))
    (af_key af_val smm mf : List Rat) (scatter : Rat) (rpt : Int)
    (sm_step : Rat) : CallState ε :=
  if smm.length ≠ mf.length then
    ⟨af_key, af_val, smm, mf, [], .invalidArgument⟩
  else
    let step := |sm_step|
    match listMin af_key, listMin smm with
    | some keyMin, some smmMin =>
      let sm_min := min keyMin smmMin
      if sm_min ≤ 0 then
        let offset := step - sm_min
        let key1 := af_key.map (· + offset)
        let smm1 := smm.map (· + offset)
        let c : FitCall := ⟨key1, af_val, key1.length, smm1, mf, mf.length,
          scatter, rpt, step⟩
        match fit c with
        | .ok smm2 =>
          ⟨key1.map (· - offset), af_val, smm2.map (· - offset), mf, [c],
            .ok (smm2.map (· - offset))⟩
        | .error e => ⟨key1, af_val, smm1, mf, [c], .fitFailure e⟩
      else
        let c : FitCall := ⟨af_key, af_val, af_key.length, smm, mf, mf.length,
          scatter, rpt, step⟩
        match fit c with
        | .ok smm2 => ⟨af_key, af_val, smm2, mf, [c], .ok smm2⟩
        | .error e => ⟨af_key, af_val, smm, mf, [c], .fitFailure e⟩
    | _, _ => ⟨af_key, af_val, smm, mf, [], .emptyMinError⟩

/-- The external routine used for concrete witnesses: it "succeeds" and
leaves `smm` as passed. -/
def trivFit : FitCall → Except Nat (List Rat) := fun c => .ok c.smm

/-- Characterization: mismatched lengths give an immediate error with no
external call and untouched arrays. -/
lemma deconv_invalid {ε : Type} (fit : FitCall → Except ε (List Rat))
    (af_key af_val smm mf : List Rat) (scatter : Rat) (rpt : Int)
    (sm_step : Rat) (hlen : smm.length ≠ mf.length) :
    fiducial_deconvolute fit af_key af_val smm mf scatter rpt sm_step =
      ⟨af_key, af_val, smm, mf, [], .invalidArgument⟩ := by
  simp only [fiducial_deconvolute, if_pos hlen]

/-- Characterization of the offset branch (`sm_min ≤ 0`). -/
lemma deconv_offset {ε : Type} (fit : FitCall → Except ε (List Rat))
    (af_key af_val smm mf : List Rat) (scatter : Rat) (rpt : Int)
    (sm_step : Rat) (keyMin smmMin : Rat)
    (hk : listMin af_key = some keyMin) (hs : listMin smm = some smmMin)
    (hlen : smm.length = mf.length) (hmin : min keyMin smmMin ≤ 0) :
    fiducial_deconvolute fit af_key af_val smm mf scatter rpt sm_step =
      let offset := |sm_step| - min keyMin smmMin
      let key1 := af_key.map (· + offset)
      let smm1 := smm.map (· + offset)
      let c : FitCall := ⟨key1, af_val, key1.length, smm1, mf, mf.length,
        scatter, rpt, |sm_step|⟩
      match fit c with
      | .ok smm2 =>
        ⟨key1.map (· - offset), af_val, smm2.map (· - offset), mf, [c],
          .ok (smm2.map (· - offset))⟩
      | .error e => ⟨key1, af_val, smm1, mf, [c], .fitFailure e⟩ := by
  simp only [fiducial_deconvolute, hk, hs,
    if_neg (show ¬smm.length ≠ mf.length from not_not_intro hlen),
    if_pos hmin]

/-- Characterization of the no-offset branch (`sm_min > 0`). -/
lemma deconv_noOffset {ε : Type} (fit : FitCall → Except ε (List Rat))
    (af_key af_val smm mf : List Rat) (scatter : Rat) (rpt : Int)
    (sm_step : Rat) (keyMin smmMin : Rat)
    (hk : listMin af_key = some keyMin) (hs : listMin smm = some smmMin)
    (hlen : smm.length = mf.length) (hmin : ¬min keyMin smmMin ≤ 0) :
    fiducial_deconvolute fit af_key af_val smm mf scatter rpt sm_step =
      let c : FitCall := ⟨af_key, af_val, af_key.length, smm, mf, mf.length,
        scatter, rpt, |sm_step|⟩
      match fit c with
      | .ok smm2 => ⟨af_key, af_val, smm2, mf, [c], .ok smm2⟩
      | .error e => ⟨af_key, af_val, smm, mf, [c], .fitFailure e⟩ := by
  simp only [fiducial_deconvolute, hk, hs,
    if_neg (show ¬smm.length ≠ mf.length from not_not_intro hlen),
    if_neg hmin]

/-- Characterization: an empty `af_key` with the length check passed gives
numpy's empty-min error, no external call, untouched arrays. -/
lemma deconv_emptyKey {ε : Type} (fit : FitCall → Except ε (List Rat))
    (af_val smm mf : List Rat) (scatter : Rat) (rpt : Int) (sm_step : Rat)
    (hlen : smm.length = mf.length) :
    fiducial_deconvolute fit [] af_val smm mf scatter rpt sm_step =
      ⟨[], af_val, smm, mf, [], .emptyMinError⟩ := by
  simp only [fiducial_deconvolute,
    if_neg (show ¬smm.length ≠ mf.length from not_not_intro hlen), listMin]

/-- Characterization: an empty `smm` (with `mf` also empty so the length
check passes) gives numpy's empty-min error, no external call, untouched
arrays. -/
lemma deconv_emptySmm {ε : Type} (fit : FitCall → Except ε (List Rat))
    (af_key af_val mf : List Rat) (scatter : Rat) (rpt : Int) (sm_step : Rat)
    (hlen : ([] : List Rat).length = mf.length) :
    fiducial_deconvolute fit af_key af_val [] mf scatter rpt sm_step =
      ⟨af_key, af_val, [], mf, [], .emptyMinError⟩ := by
  cases af_key with
  | nil => exact deconv_emptyKey fit af_val [] mf scatter rpt sm_step hlen
  | cons a l =>
    simp only [fiducial_deconvolute,
      if_neg (show ¬([] : List Rat).length ≠ mf.length from not_not_intro hlen),
      listMin]

/-- The running minimum of a `foldl min` is at most its seed. -/
lemma foldl_min_le_init (xs : List Rat) (a : Rat) : xs.foldl min a ≤ a := by
  induction xs generalizing a with
  | nil => simp
  | cons y ys ih =>
    exact le_trans (ih (min a y)) (min_le_left a y)

/-- The running minimum of a `foldl min` is at most every list element. -/
lemma foldl_min_le_mem (xs : List Rat) (a : Rat) :
    ∀ y ∈ xs, xs.foldl min a ≤ y := by
  induction xs generalizing a with
  | nil => simp
  | cons z zs ih =>
    intro y hy
    rcases List.mem_cons.mp hy with h | h
    · subst h
      exact le_trans (foldl_min_le_init zs (min a y)) (min_le_right a y)
    · exact ih (min a z) y h

/-- `listMin` bounds every element of the list from below. -/
lemma listMin_le {l : List Rat} {m : Rat} (h : listMin l = some m) :
    ∀ x ∈ l, m ≤ x := by
  cases l with
  | nil => simp [listMin] at h
  | cons a xs =>
    intro x hx
    have hm : m = xs.foldl min a := by
      simpa [listMin] using h.symm
    subst hm
    rcases List.mem_cons.mp hx with h | h
    · subst h
      exact foldl_min_le_init xs x
    · exact foldl_min_le_mem xs a x h

/-- Adding then subtracting the same offset is the identity on a list of
rationals. -/
lemma map_add_sub (o : Rat) (l : List Rat) :
    (l.map (· + o)).map (· - o) = l := by
  simp [List.map_map, Function.comp_def]

/-- The argument record the wrapper passes to the external routine when
the offset branch triggered with joint minimum `mn`. -/
def offsetCall (af_key af_val smm mf : List Rat) (scatter : Rat) (rpt : Int)
    (sm_step : Rat) (mn : Rat) : FitCall :=
  ⟨af_key.map (· + (|sm_step| - mn)), af_val,
    (af_key.map (· + (|sm_step| - mn))).length,
    smm.map (· + (|sm_step| - mn)), mf, mf.length, scatter, rpt, |sm_step|⟩

/-- The argument record the wrapper passes to the external routine when no
offset was applied. -/
def plainCall (af_key af_val smm mf : List Rat) (scatter : Rat) (rpt : Int)
    (sm_step : Rat) : FitCall :=
  ⟨af_key, af_val, af_key.length, smm, mf, mf.length, scatter, rpt, |sm_step|⟩

/-- Offset branch, external routine succeeds: one external call on the
offset arrays, `key` restored exactly, the routine's output shifted back
down by the offset and returned. -/
lemma deconv_offset_ok {ε : Type} (fit : FitCall → Except ε (List Rat))
    (af_key af_val smm mf : List Rat) (scatter : Rat) (rpt : Int)
    (sm_step : Rat) (keyMin smmMin : Rat) (smm2 : List Rat)
    (hk : listMin af_key = some keyMin) (hs : listMin smm = some smmMin)
    (hlen : smm.length = mf.length) (hmin : min keyMin smmMin ≤ 0)
    (hfc : fit (offsetCall af_key af_val smm mf scatter rpt sm_step
      (min keyMin smmMin)) = .ok smm2) :
    fiducial_deconvolute fit af_key af_val smm mf scatter rpt sm_step =
      ⟨af_key, af_val, smm2.map (· - (|sm_step| - min keyMin smmMin)), mf,
        [offsetCall af_key af_val smm mf scatter rpt sm_step
          (min keyMin smmMin)],
        .ok (smm2.map (· - (|sm_step| - min keyMin smmMin)))⟩ := by
  rw [deconv_offset fit af_key af_val smm mf scatter rpt sm_step keyMin smmMin
    hk hs hlen hmin]
  simp only [offsetCall] at hfc
  simp only [hfc, map_add_sub, offsetCall]

/-- Offset branch, external routine fails: the failure propagates and both
`key` and `smm` are left in their offset state. -/
lemma deconv_offset_err {ε : Type} (fit : FitCall → Except ε (List Rat))
    (af_key af_val smm mf : List Rat) (scatter : Rat) (rpt : Int)
    (sm_step : Rat) (keyMin smmMin : Rat) (e : ε)
    (hk : listMin af_key = some keyMin) (hs : listMin smm = some smmMin)
    (hlen : smm.length = mf.length) (hmin : min keyMin smmMin ≤ 0)
    (hfc : fit (offsetCall af_key af_val smm mf scatter rpt sm_step
      (min keyMin smmMin)) = .error e) :
    fiducial_deconvolute fit af_key af_val smm mf scatter rpt sm_step =
      ⟨af_key.map (· + (|sm_step| - min keyMin smmMin)), af_val,
        smm.map (· + (|sm_step| - min keyMin smmMin)), mf,
        [offsetCall af_key af_val smm mf scatter rpt sm_step
          (min keyMin smmMin)],
        .fitFailure e⟩ := by
  rw [deconv_offset fit af_key af_val smm mf scatter rpt sm_step keyMin smmMin
    hk hs hlen hmin]
  simp only [offsetCall] at hfc
  simp only [hfc, offsetCall]

/-- No-offset branch, external routine succeeds: one external call on the
original arrays, the routine's output returned as is. -/
lemma deconv_plain_ok {ε : Type} (fit : FitCall → Except ε (List Rat))
    (af_key af_val smm mf : List Rat) (scatter : Rat) (rpt : Int)
    (sm_step : Rat) (keyMin smmMin : Rat) (smm2 : List Rat)
    (hk : listMin af_key = some keyMin) (hs : listMin smm = some smmMin)
    (hlen : smm.length = mf.length) (hmin : ¬min keyMin smmMin ≤ 0)
    (hfc : fit (plainCall af_key af_val smm mf scatter rpt sm_step)
      = .ok smm2) :
    fiducial_deconvolute fit af_key af_val smm mf scatter rpt sm_step =
      ⟨af_key, af_val, smm2, mf,
        [plainCall af_key af_val smm mf scatter rpt sm_step], .ok smm2⟩ := by
  rw [deconv_noOffset fit af_key af_val smm mf scatter rpt sm_step keyMin
    smmMin hk hs hlen hmin]
  simp only [plainCall] at hfc
  simp only [hfc, plainCall]

/-- No-offset branch, external routine fails: the failure propagates,
`key` and `smm` are exactly the caller's arrays. -/
lemma deconv_plain_err {ε : Type} (fit : FitCall → Except ε (List Rat))
    (af_key af_val smm mf : List Rat) (scatter : Rat) (rpt : Int)
    (sm_step : Rat) (keyMin smmMin : Rat) (e : ε)
    (hk : listMin af_key = some keyMin) (hs : listMin smm = some smmMin)
    (hlen : smm.length = mf.length) (hmin : ¬min keyMin smmMin ≤ 0)
    (hfc : fit (plainCall af_key af_val smm mf scatter rpt sm_step)
      = .error e) :
    fiducial_deconvolute fit af_key af_val smm mf scatter rpt sm_step =
      ⟨af_key, af_val, smm, mf,
        [plainCall af_key af_val smm mf scatter rpt sm_step],
        .fitFailure e⟩ := by
  rw [deconv_noOffset fit af_key af_val smm mf scatter rpt sm_step keyMin
    smmMin hk hs hlen hmin]
  simp only [plainCall] at hfc
  simp only [hfc, plainCall]

/-- C3: when `len(smm) ≠ len(mf)` the call fails with the
`InvalidArgument` error (`ValueError` in the source), no external call is
made, and every array is returned untouched. -/
theorem claim3_invalid_argument {ε : Type} (fit : FitCall → Except ε (List Rat))
    (af_key af_val smm mf : List Rat) (scatter : Rat) (rpt : Int)
    (sm_step : Rat) (hlen : smm.length ≠ mf.length) :
    (fiducial_deconvolute fit af_key af_val smm mf scatter rpt sm_step).outcome
        = .invalidArgument ∧
    (fiducial_deconvolute fit af_key af_val smm mf scatter rpt sm_step).calls
        = [] ∧
    (fiducial_deconvolute fit af_key af_val smm mf scatter rpt sm_step).key
        = af_key ∧
    (fiducial_deconvolute fit af_key af_val smm mf scatter rpt sm_step).smm
        = smm := by
  rw [deconv_invalid fit af_key af_val smm mf scatter rpt sm_step hlen]
  exact ⟨rfl, rfl, rfl, rfl⟩

/-- Witness for C3 at `smm = [1,2]`, `mf = [1]`. -/
theorem claim3_witness :
    (fiducial_deconvolute trivFit [1] [1] [1, 2] [1] 0 40 (1/100)).outcome
        = .invalidArgument ∧
    (fiducial_deconvolute trivFit [1] [1] [1, 2] [1] 0 40 (1/100)).calls = [] ∧
    (fiducial_deconvolute trivFit [1] [1] [1, 2] [1] 0 40 (1/100)).key = [1] ∧
    (fiducial_deconvolute trivFit [1] [1] [1, 2] [1] 0 40 (1/100)).smm = [1, 2] :=
  claim3_invalid_argument trivFit [1] [1] [1, 2] [1] 0 40 (1/100) (by decide)

/-- All entries of a list shifted by `|sm_step| - mn` are strictly
positive when `mn` bounds the list's minimum from below and
`sm_step ≠ 0`. -/
lemma offset_elem_pos {l : List Rat} {m mn sm_step : Rat}
    (hm : listMin l = some m) (hmn : mn ≤ m) (hstep : sm_step ≠ 0) :
    ∀ x ∈ l.map (· + (|sm_step| - mn)), 0 < x := by
  intro x hx
  obtain ⟨y, hy, rfl⟩ := List.mem_map.mp hx
  have h1 := listMin_le hm y hy
  have h2 : 0 < |sm_step| := abs_pos.mpr hstep
  linarith

/-- C1 (amended with `sm_step ≠ 0`): whenever the offset branch triggers,
the offset added to every entry of `af_key` and `smm` equals
`|sm_step| - sm_min`, it satisfies `offset ≥ |sm_step| > 0`, and every
entry of the key and smm arrays handed to the external routine is
strictly positive. -/
theorem claim1_offset_positivity {ε : Type}
    (fit : FitCall → Except ε (List Rat)) (af_key af_val smm mf : List Rat)
    (scatter : Rat) (rpt : Int) (sm_step : Rat) (keyMin smmMin : Rat)
    (hk : listMin af_key = some keyMin) (hs : listMin smm = some smmMin)
    (hlen : smm.length = mf.length) (hmin : min keyMin smmMin ≤ 0)
    (hstep : sm_step ≠ 0) :
    ∀ c ∈ (fiducial_deconvolute fit af_key af_val smm mf scatter rpt
        sm_step).calls,
      c.key = af_key.map (· + (|sm_step| - min keyMin smmMin)) ∧
      c.smm = smm.map (· + (|sm_step| - min keyMin smmMin)) ∧
      |sm_step| ≤ |sm_step| - min keyMin smmMin ∧ 0 < |sm_step| ∧
      (∀ x ∈ c.key, 0 < x) ∧ (∀ x ∈ c.smm, 0 < x) := by
  have hko := offset_elem_pos hk (min_le_left keyMin smmMin) hstep
  have hso := offset_elem_pos hs (min_le_right keyMin smmMin) hstep
  have hpos : 0 < |sm_step| := abs_pos.mpr hstep
  have hoff : |sm_step| ≤ |sm_step| - min keyMin smmMin := by linarith
  cases hfc : fit (offsetCall af_key af_val smm mf scatter rpt sm_step
      (min keyMin smmMin)) with
  | ok smm2 =>
    rw [deconv_offset_ok fit af_key af_val smm mf scatter rpt sm_step keyMin
      smmMin smm2 hk hs hlen hmin hfc]
    intro c hc
    rw [List.mem_singleton] at hc
    subst hc
    exact ⟨by simp [offsetCall], by simp [offsetCall], hoff, hpos,
      by simpa [offsetCall] using hko, by simpa [offsetCall] using hso⟩
  | error e =>
    rw [deconv_offset_err fit af_key af_val smm mf scatter rpt sm_step keyMin
      smmMin e hk hs hlen hmin hfc]
    intro c hc
    rw [List.mem_singleton] at hc
    subst hc
    exact ⟨by simp [offsetCall], by simp [offsetCall], hoff, hpos,
      by simpa [offsetCall] using hko, by simpa [offsetCall] using hso⟩

/-- Counterexample to C1 as stated: with `sm_step = 0` the offset branch
triggers (the joint minimum is `0 ≤ 0`), the external routine is called,
but the step is not positive and the key entry passed to it is `0`, not
strictly positive. -/
theorem claim1_counterexample :
    min (0 : Rat) 1 ≤ 0 ∧
    (fiducial_deconvolute trivFit [(0 : Rat)] [0] [1] [1] 0 40 0).calls =
      [⟨[0], [0], 1, [1], [1], 1, 0, 40, 0⟩] ∧
    ¬(∀ c ∈ (fiducial_deconvolute trivFit [(0 : Rat)] [0] [1] [1] 0 40
        0).calls, 0 < c.step ∧ ∀ x ∈ c.key, 0 < x) := by
  have hm : min (0 : Rat) 1 = 0 := min_eq_left (by norm_num)
  have hcalls :
      (fiducial_deconvolute trivFit [(0 : Rat)] [0] [1] [1] 0 40 0).calls
        = [⟨[0], [0], 1, [1], [1], 1, 0, 40, 0⟩] := by
    rw [deconv_offset_ok trivFit [0] [0] [1] [1] 0 40 0 0 1
      ((offsetCall [0] [0] [1] [1] 0 40 0 (min 0 1)).smm) rfl rfl rfl
      (by norm_num) rfl]
    simp [offsetCall, hm]
  refine ⟨by norm_num, hcalls, ?_⟩
  intro h
  have h0 := h ⟨[0], [0], 1, [1], [1], 1, 0, 40, 0⟩
    (by rw [hcalls]; exact List.mem_singleton.mpr rfl)
  exact absurd h0.1 (by norm_num)

/-- Witness for C1 at `af_key = [-1]`, `smm = [1]`, `sm_step = 1/100`. -/
theorem claim1_witness :
    (fiducial_deconvolute trivFit [(-1 : Rat)] [1] [1] [1] 0 40
        (1/100)).calls =
      [offsetCall [-1] [1] [1] [1] 0 40 (1/100) (min (-1 : Rat) 1)] ∧
    ∀ c ∈ (fiducial_deconvolute trivFit [(-1 : Rat)] [1] [1] [1] 0 40
        (1/100)).calls,
      c.key = [(-1 : Rat)].map (· + (|(1/100 : Rat)| - min (-1 : Rat) 1)) ∧
      c.smm = [(1 : Rat)].map (· + (|(1/100 : Rat)| - min (-1 : Rat) 1)) ∧
      |(1/100 : Rat)| ≤ |(1/100 : Rat)| - min (-1 : Rat) 1 ∧
      0 < |(1/100 : Rat)| ∧
      (∀ x ∈ c.key, 0 < x) ∧ (∀ x ∈ c.smm, 0 < x) :=
  ⟨by rw [deconv_offset_ok trivFit [-1] [1] [1] [1] 0 40 (1/100) (-1) 1
      ((offsetCall [-1] [1] [1] [1] 0 40 (1/100) (min (-1) 1)).smm)
      rfl rfl rfl (by norm_num) rfl],
   claim1_offset_positivity trivFit [-1] [1] [1] [1] 0 40 (1/100) (-1) 1
     rfl rfl rfl (by norm_num) (by norm_num)⟩

/-- C2: when the offset branch triggers and the call returns normally,
`af_key` comes back holding exactly its original values (exact
arithmetic: adding then subtracting the same offset is the identity). -/
theorem claim2_key_restored {ε : Type}
    (fit : FitCall → Except ε (List Rat)) (af_key af_val smm mf : List Rat)
    (scatter : Rat) (rpt : Int) (sm_step : Rat) (keyMin smmMin : Rat)
    (hk : listMin af_key = some keyMin) (hs : listMin smm = some smmMin)
    (hlen : smm.length = mf.length) (hmin : min keyMin smmMin ≤ 0)
    (r : List Rat)
    (hok : (fiducial_deconvolute fit af_key af_val smm mf scatter rpt
      sm_step).outcome = .ok r) :
    (fiducial_deconvolute fit af_key af_val smm mf scatter rpt sm_step).key
      = af_key := by
  cases hfc : fit (offsetCall af_key af_val smm mf scatter rpt sm_step
      (min keyMin smmMin)) with
  | ok smm2 =>
    rw [deconv_offset_ok fit af_key af_val smm mf scatter rpt sm_step keyMin
      smmMin smm2 hk hs hlen hmin hfc]
  | error e =>
    rw [deconv_offset_err fit af_key af_val smm mf scatter rpt sm_step keyMin
      smmMin e hk hs hlen hmin hfc] at hok
    simp at hok

/-- Witness for C2 at `af_key = [-1]`, `smm = [1]`, `sm_step = 1/100`. -/
theorem claim2_witness :
    (fiducial_deconvolute trivFit [(-1 : Rat)] [1] [1] [1] 0 40
      (1/100)).key = [-1] :=
  claim2_key_restored trivFit [-1] [1] [1] [1] 0 40 (1/100) (-1) 1
    rfl rfl rfl (by norm_num)
    ((offsetCall [-1] [1] [1] [1] 0 40 (1/100) (min (-1) 1)).smm.map
      (· - (|(1/100 : Rat)| - min (-1 : Rat) 1)))
    (by rw [deconv_offset_ok trivFit [-1] [1] [1] [1] 0 40 (1/100) (-1) 1
        ((offsetCall [-1] [1] [1] [1] 0 40 (1/100) (min (-1) 1)).smm)
        rfl rfl rfl (by norm_num) rfl])

/-- C6: the wrapper only ever uses `|sm_step|`, so calling it with
`sm_step = s` and with `sm_step = -s` gives identical results. -/
theorem claim6_step_sign_invariant {ε : Type}
    (fit : FitCall → Except ε (List Rat)) (af_key af_val smm mf : List Rat)
    (scatter : Rat) (rpt : Int) (s : Rat) :
    fiducial_deconvolute fit af_key af_val smm mf scatter rpt (-s) =
      fiducial_deconvolute fit af_key af_val smm mf scatter rpt s := by
  simp only [fiducial_deconvolute, abs_neg]

/-- C10: the wrapper never touches `af_val` or `mf`: on every path (length
error, empty-array error, offset or no-offset branch, external success or
failure) both come back unchanged. -/
theorem claim10_val_mf_unchanged {ε : Type}
    (fit : FitCall → Except ε (List Rat)) (af_key af_val smm mf : List Rat)
    (scatter : Rat) (rpt : Int) (sm_step : Rat) :
    (fiducial_deconvolute fit af_key af_val smm mf scatter rpt sm_step).value
        = af_val ∧
    (fiducial_deconvolute fit af_key af_val smm mf scatter rpt sm_step).mf
        = mf := by
  by_cases hlen : smm.length = mf.length
  · rcases hk : listMin af_key with _ | keyMin
    · cases af_key with
      | nil =>
        rw [deconv_emptyKey fit af_val smm mf scatter rpt sm_step hlen]
        exact ⟨rfl, rfl⟩
      | cons a l => simp [listMin] at hk
    · rcases hs : listMin smm with _ | smmMin
      · cases smm with
        | nil =>
          rw [deconv_emptySmm fit af_key af_val mf scatter rpt sm_step hlen]
          exact ⟨rfl, rfl⟩
        | cons a l => simp [listMin] at hs
      · by_cases hmin : min keyMin smmMin ≤ 0
        · rw [deconv_offset fit af_key af_val smm mf scatter rpt sm_step
            keyMin smmMin hk hs hlen hmin]
          simp only []
          split <;> exact ⟨rfl, rfl⟩
        · rw [deconv_noOffset fit af_key af_val smm mf scatter rpt sm_step
            keyMin smmMin hk hs hlen hmin]
          simp only []
          split <;> exact ⟨rfl, rfl⟩
  · rw [deconv_invalid fit af_key af_val smm mf scatter rpt sm_step hlen]
    exact ⟨rfl, rfl⟩

/-- C4 (amended with nonempty `af_key` and `smm`): every call past the
length check makes exactly one external call, whose arguments are, in
order, the (possibly offset) key array, the value array, the key array's
length, the (possibly offset) smm array, the mf array, its length, the
scatter, the repeat count, and `|sm_step|`. -/
theorem claim4_fit_called_once {ε : Type}
    (fit : FitCall → Except ε (List Rat)) (af_key af_val smm mf : List Rat)
    (scatter : Rat) (rpt : Int) (sm_step : Rat) (keyMin smmMin : Rat)
    (hk : listMin af_key = some keyMin) (hs : listMin smm = some smmMin)
    (hlen : smm.length = mf.length) :
    (fiducial_deconvolute fit af_key af_val smm mf scatter rpt
        sm_step).calls =
      [if min keyMin smmMin ≤ 0 then
        offsetCall af_key af_val smm mf scatter rpt sm_step
          (min keyMin smmMin)
      else plainCall af_key af_val smm mf scatter rpt sm_step] ∧
    ∀ c ∈ (fiducial_deconvolute fit af_key af_val smm mf scatter rpt
        sm_step).calls,
      c.value = af_val ∧ c.nAf = c.key.length ∧
      c.key.length = af_key.length ∧ c.mf = mf ∧ c.nMf = mf.length ∧
      c.scatter = scatter ∧ c.rpt = rpt ∧ c.step = |sm_step| := by
  by_cases hmin : min keyMin smmMin ≤ 0
  · cases hfc : fit (offsetCall af_key af_val smm mf scatter rpt sm_step
        (min keyMin smmMin)) with
    | ok smm2 =>
      rw [deconv_offset_ok fit af_key af_val smm mf scatter rpt sm_step
        keyMin smmMin smm2 hk hs hlen hmin hfc]
      refine ⟨by rw [if_pos hmin], ?_⟩
      intro c hc
      rw [List.mem_singleton] at hc
      subst hc
      exact ⟨rfl, rfl, by simp [offsetCall], rfl, rfl, rfl, rfl, rfl⟩
    | error e =>
      rw [deconv_offset_err fit af_key af_val smm mf scatter rpt sm_step
        keyMin smmMin e hk hs hlen hmin hfc]
      refine ⟨by rw [if_pos hmin], ?_⟩
      intro c hc
      rw [List.mem_singleton] at hc
      subst hc
      exact ⟨rfl, rfl, by simp [offsetCall], rfl, rfl, rfl, rfl, rfl⟩
  · cases hfc : fit (plainCall af_key af_val smm mf scatter rpt
        sm_step) with
    | ok smm2 =>
      rw [deconv_plain_ok fit af_key af_val smm mf scatter rpt sm_step
        keyMin smmMin smm2 hk hs hlen hmin hfc]
      refine ⟨by rw [if_neg hmin], ?_⟩
      intro c hc
      rw [List.mem_singleton] at hc
      subst hc
      exact ⟨rfl, rfl, rfl, rfl, rfl, rfl, rfl, rfl⟩
    | error e =>
      rw [deconv_plain_err fit af_key af_val smm mf scatter rpt sm_step
        keyMin smmMin e hk hs hlen hmin hfc]
      refine ⟨by rw [if_neg hmin], ?_⟩
      intro c hc
      rw [List.mem_singleton] at hc
      subst hc
      exact ⟨rfl, rfl, rfl, rfl, rfl, rfl, rfl, rfl⟩

/-- Counterexample to C4 as stated: with `af_key`, `af_val`, `smm` and
`mf` all empty, the length check `len(smm) == len(mf)` passes, yet
`af_key.min()` raises numpy's empty-reduction `ValueError` and the
external routine is never invoked. -/
theorem claim4_counterexample :
    ([] : List Rat).length = ([] : List Rat).length ∧
    (fiducial_deconvolute trivFit ([] : List Rat) [] [] [] 0 40
      (1/100)).calls = [] ∧
    (fiducial_deconvolute trivFit ([] : List Rat) [] [] [] 0 40
      (1/100)).outcome = .emptyMinError := by
  refine ⟨rfl, ?_, ?_⟩ <;>
    rw [deconv_emptyKey trivFit [] [] [] 0 40 (1/100) rfl]

/-- Witness for C4 at `af_key = [-1]`, `smm = [1]`. -/
theorem claim4_witness :
    (fiducial_deconvolute trivFit [(-1 : Rat)] [1] [1] [1] 0 40
        (1/100)).calls =
      [if min (-1 : Rat) 1 ≤ 0 then
        offsetCall [-1] [1] [1] [1] 0 40 (1/100) (min (-1 : Rat) 1)
      else plainCall [-1] [1] [1] [1] 0 40 (1/100)] ∧
    ∀ c ∈ (fiducial_deconvolute trivFit [(-1 : Rat)] [1] [1] [1] 0 40
        (1/100)).calls,
      c.value = [1] ∧ c.nAf = c.key.length ∧
      c.key.length = [(-1 : Rat)].length ∧ c.mf = [1] ∧
      c.nMf = [(1 : Rat)].length ∧ c.scatter = 0 ∧ c.rpt = 40 ∧
      c.step = |(1/100 : Rat)| :=
  claim4_fit_called_once trivFit [-1] [1] [1] [1] 0 40 (1/100) (-1) 1
    rfl rfl rfl

/-- C5: when both array minima are strictly positive no offset is ever
applied: every external call receives the original arrays, the returned
`smm` is the external routine's output unshifted, and `key` comes back
identical to the input on every path. -/
theorem claim5_no_offset {ε : Type}
    (fit : FitCall → Except ε (List Rat)) (af_key af_val smm mf : List Rat)
    (scatter : Rat) (rpt : Int) (sm_step : Rat) (keyMin smmMin : Rat)
    (hk : listMin af_key = some keyMin) (hkpos : 0 < keyMin)
    (hs : listMin smm = some smmMin) (hspos : 0 < smmMin) :
    (fiducial_deconvolute fit af_key af_val smm mf scatter rpt sm_step).key
        = af_key ∧
    (∀ c ∈ (fiducial_deconvolute fit af_key af_val smm mf scatter rpt
        sm_step).calls, c.key = af_key ∧ c.smm = smm) ∧
    (∀ r, (fiducial_deconvolute fit af_key af_val smm mf scatter rpt
        sm_step).outcome = .ok r →
      (fiducial_deconvolute fit af_key af_val smm mf scatter rpt
        sm_step).smm = r) := by
  have hmin : ¬min keyMin smmMin ≤ 0 := not_le.mpr (lt_min hkpos hspos)
  by_cases hlen : smm.length = mf.length
  · cases hfc : fit (plainCall af_key af_val smm mf scatter rpt
        sm_step) with
    | ok smm2 =>
      rw [deconv_plain_ok fit af_key af_val smm mf scatter rpt sm_step
        keyMin smmMin smm2 hk hs hlen hmin hfc]
      refine ⟨rfl, ?_, ?_⟩
      · intro c hc
        rw [List.mem_singleton] at hc
        subst hc
        exact ⟨rfl, rfl⟩
      · intro r hr
        simp only [Outcome.ok.injEq] at hr
        simpa using hr
    | error e =>
      rw [deconv_plain_err fit af_key af_val smm mf scatter rpt sm_step
        keyMin smmMin e hk hs hlen hmin hfc]
      refine ⟨rfl, ?_, ?_⟩
      · intro c hc
        rw [List.mem_singleton] at hc
        subst hc
        exact ⟨rfl, rfl⟩
      · intro r hr
        simp at hr
  · rw [deconv_invalid fit af_key af_val smm mf scatter rpt sm_step hlen]
    refine ⟨rfl, ?_, ?_⟩
    · intro c hc
      simp at hc
    · intro r hr
      simp at hr

/-- Witness for C5 at `af_key = [1]`, `smm = [2]`. -/
theorem claim5_witness :
    (fiducial_deconvolute trivFit [(1 : Rat)] [1] [2] [3] 0 40
      (1/100)).key = [1] ∧
    (∀ c ∈ (fiducial_deconvolute trivFit [(1 : Rat)] [1] [2] [3] 0 40
      (1/100)).calls, c.key = [1] ∧ c.smm = [2]) ∧
    (∀ r, (fiducial_deconvolute trivFit [(1 : Rat)] [1] [2] [3] 0 40
      (1/100)).outcome = .ok r →
      (fiducial_deconvolute trivFit [(1 : Rat)] [1] [2] [3] 0 40
        (1/100)).smm = r) :=
  claim5_no_offset trivFit [1] [1] [2] [3] 0 40 (1/100) 1 2 rfl
    (by norm_num) rfl (by norm_num)

/-- C7: the concrete scenario `key=[-1,2,3]`, `value=[1,1,1]`,
`smm=[1/2,3/2]`, `mf=[2,3]`, `scatter=1/5`, `sm_step=1/100`: the joint
minimum is `-1`, the offset is `101/100`, the external routine receives
`key=[1/100,301/100,401/100]` and `smm=[151/100,251/100]`, the returned
`smm` is the routine's output lowered by `101/100`, and `key` is restored
to `[-1,2,3]`. -/
theorem claim7_concrete_scenario {ε : Type}
    (fit : FitCall → Except ε (List Rat)) (r : List Rat)
    (hfc : fit ⟨[1/100, 301/100, 401/100], [1, 1, 1], 3,
      [151/100, 251/100], [2, 3], 2, 1/5, 40, 1/100⟩ = .ok r) :
    (fiducial_deconvolute fit [-1, 2, 3] [1, 1, 1] [1/2, 3/2] [2, 3]
        (1/5) 40 (1/100)).calls =
      [⟨[1/100, 301/100, 401/100], [1, 1, 1], 3, [151/100, 251/100],
        [2, 3], 2, 1/5, 40, 1/100⟩] ∧
    (fiducial_deconvolute fit [-1, 2, 3] [1, 1, 1] [1/2, 3/2] [2, 3]
        (1/5) 40 (1/100)).key = [-1, 2, 3] ∧
    (fiducial_deconvolute fit [-1, 2, 3] [1, 1, 1] [1/2, 3/2] [2, 3]
        (1/5) 40 (1/100)).smm = r.map (· - 101/100) ∧
    (fiducial_deconvolute fit [-1, 2, 3] [1, 1, 1] [1/2, 3/2] [2, 3]
        (1/5) 40 (1/100)).outcome = .ok (r.map (· - 101/100)) := by
  have hmv : min (-1 : Rat) (1/2) = -1 := min_eq_left (by norm_num)
  have habs : |(1/100 : Rat)| = 1/100 := abs_of_pos (by norm_num)
  have hk : listMin [(-1 : Rat), 2, 3] = some (-1) := by
    simp only [listMin, List.foldl]
    norm_num [min_eq_left, min_def]
  have hs : listMin [(1/2 : Rat), 3/2] = some (1/2) := by
    simp only [listMin, List.foldl]
    norm_num [min_def]
  have hoc : offsetCall [-1, 2, 3] [1, 1, 1] [1/2, 3/2] [2, 3] (1/5) 40
      (1/100) (min (-1 : Rat) (1/2)) =
      ⟨[1/100, 301/100, 401/100], [1, 1, 1], 3, [151/100, 251/100],
        [2, 3], 2, 1/5, 40, 1/100⟩ := by
    simp only [offsetCall, hmv, habs]
    norm_num
  rw [← hoc] at hfc
  rw [deconv_offset_ok fit [-1, 2, 3] [1, 1, 1] [1/2, 3/2] [2, 3] (1/5) 40
    (1/100) (-1) (1/2) r hk hs rfl (by norm_num) hfc]
  have hmap : (fun x => x - (|(1/100 : Rat)| - min (-1 : Rat) (1/2)))
      = (fun x : Rat => x - 101/100) := by
    funext x
    rw [hmv, habs]
    norm_num
  refine ⟨by rw [hoc], rfl, ?_, ?_⟩ <;>
    simp only [CallState.smm, CallState.outcome, hmap]

/-- Witness for C7 with the external routine that returns its `smm`
argument unchanged. -/
theorem claim7_witness :
    (fiducial_deconvolute trivFit [-1, 2, 3] [1, 1, 1] [1/2, 3/2] [2, 3]
        (1/5) 40 (1/100)).calls =
      [⟨[1/100, 301/100, 401/100], [1, 1, 1], 3, [151/100, 251/100],
        [2, 3], 2, 1/5, 40, 1/100⟩] ∧
    (fiducial_deconvolute trivFit [-1, 2, 3] [1, 1, 1] [1/2, 3/2] [2, 3]
        (1/5) 40 (1/100)).key = [-1, 2, 3] ∧
    (fiducial_deconvolute trivFit [-1, 2, 3] [1, 1, 1] [1/2, 3/2] [2, 3]
        (1/5) 40 (1/100)).smm =
      [(151 : Rat)/100, 251/100].map (· - 101/100) ∧
    (fiducial_deconvolute trivFit [-1, 2, 3] [1, 1, 1] [1/2, 3/2] [2, 3]
        (1/5) 40 (1/100)).outcome =
      .ok ([(151 : Rat)/100, 251/100].map (· - 101/100)) :=
  claim7_concrete_scenario trivFit [151/100, 251/100] rfl

/-- C8: for equal-length `smm` and `mf` and matching-length `key` and
`value`, modelling the in-place external routine as length-preserving,
any normally returned sequence has the length of the input `smm`. -/
theorem claim8_length_preserved {ε : Type}
    (fit : FitCall → Except ε (List Rat)) (af_key af_val smm mf : List Rat)
    (scatter : Rat) (rpt : Int) (sm_step : Rat)
    (hkv : af_key.length = af_val.length) (hlen : smm.length = mf.length)
    (hfit : ∀ c r, fit c = .ok r → r.length = c.smm.length) :
    ∀ r, (fiducial_deconvolute fit af_key af_val smm mf scatter rpt
      sm_step).outcome = .ok r → r.length = smm.length := by
  intro r hr
  rcases hkk : listMin af_key with _ | keyMin
  · cases af_key with
    | nil =>
      rw [deconv_emptyKey fit af_val smm mf scatter rpt sm_step hlen] at hr
      simp at hr
    | cons a l => simp [listMin] at hkk
  · rcases hss : listMin smm with _ | smmMin
    · cases smm with
      | nil =>
        rw [deconv_emptySmm fit af_key af_val mf scatter rpt sm_step
          hlen] at hr
        simp at hr
      | cons a l => simp [listMin] at hss
    · by_cases hmin : min keyMin smmMin ≤ 0
      · cases hfc : fit (offsetCall af_key af_val smm mf scatter rpt
            sm_step (min keyMin smmMin)) with
        | ok smm2 =>
          rw [deconv_offset_ok fit af_key af_val smm mf scatter rpt sm_step
            keyMin smmMin smm2 hkk hss hlen hmin hfc] at hr
          simp only [Outcome.ok.injEq] at hr
          have h2 := hfit _ smm2 hfc
          simp only [offsetCall, List.length_map] at h2
          rw [← hr]
          simpa using h2
        | error e =>
          rw [deconv_offset_err fit af_key af_val smm mf scatter rpt
            sm_step keyMin smmMin e hkk hss hlen hmin hfc] at hr
          simp at hr
      · cases hfc : fit (plainCall af_key af_val smm mf scatter rpt
            sm_step) with
        | ok smm2 =>
          rw [deconv_plain_ok fit af_key af_val smm mf scatter rpt sm_step
            keyMin smmMin smm2 hkk hss hlen hmin hfc] at hr
          simp only [Outcome.ok.injEq] at hr
          have h2 := hfit _ smm2 hfc
          simp only [plainCall] at h2
          rw [← hr]
          exact h2
        | error e =>
          rw [deconv_plain_err fit af_key af_val smm mf scatter rpt sm_step
            keyMin smmMin e hkk hss hlen hmin hfc] at hr
          simp at hr

/-- Witness for C8 at `af_key = [1]`, `smm = [2]`, `mf = [3]`. -/
theorem claim8_witness : ([(2 : Rat)] : List Rat).length = [(2 : Rat)].length :=
  claim8_length_preserved trivFit [1] [1] [2] [3] 0 40 (1/100) rfl rfl
    (fun c r h => by
      simp only [trivFit, Except.ok.injEq] at h
      rw [← h])
    [2]
    (by rw [deconv_plain_ok trivFit [1] [1] [2] [3] 0 40 (1/100) 1 2 [2]
      rfl rfl rfl (by norm_num) rfl])

/-- The always-failing external routine used for the C9 witness. -/
def failFit : FitCall → Except Nat (List Rat) := fun _ => .error 7

/-- C9: when the offset branch has triggered and the external routine
fails, the failure propagates unchanged as the wrapper's outcome and the
offset is never subtracted: `key` and `smm` are left in their offset
state. -/
theorem claim9_failure_leaves_offset {ε : Type}
    (fit : FitCall → Except ε (List Rat)) (af_key af_val smm mf : List Rat)
    (scatter : Rat) (rpt : Int) (sm_step : Rat) (keyMin smmMin : Rat)
    (e : ε)
    (hk : listMin af_key = some keyMin) (hs : listMin smm = some smmMin)
    (hlen : smm.length = mf.length) (hmin : min keyMin smmMin ≤ 0)
    (hfc : fit (offsetCall af_key af_val smm mf scatter rpt sm_step
      (min keyMin smmMin)) = .error e) :
    (fiducial_deconvolute fit af_key af_val smm mf scatter rpt
        sm_step).outcome = .fitFailure e ∧
    (fiducial_deconvolute fit af_key af_val smm mf scatter rpt sm_step).key
      = af_key.map (· + (|sm_step| - min keyMin smmMin)) ∧
    (fiducial_deconvolute fit af_key af_val smm mf scatter rpt sm_step).smm
      = smm.map (· + (|sm_step| - min keyMin smmMin)) := by
  rw [deconv_offset_err fit af_key af_val smm mf scatter rpt sm_step keyMin
    smmMin e hk hs hlen hmin hfc]
  exact ⟨rfl, rfl, rfl⟩

/-- Witness for C9 with the always-failing external routine at
`af_key = [-1]`, `smm = [1]`. -/
theorem claim9_witness :
    (fiducial_deconvolute failFit [(-1 : Rat)] [1] [1] [1] 0 40
      (1/100)).outcome = .fitFailure 7 ∧
    (fiducial_deconvolute failFit [(-1 : Rat)] [1] [1] [1] 0 40
      (1/100)).key =
      [(-1 : Rat)].map (· + (|(1/100 : Rat)| - min (-1 : Rat) 1)) ∧
    (fiducial_deconvolute failFit [(-1 : Rat)] [1] [1] [1] 0 40
      (1/100)).smm =
      [(1 : Rat)].map (· + (|(1/100 : Rat)| - min (-1 : Rat) 1)) :=
  claim9_failure_leaves_offset failFit [-1] [1] [1] [1] 0 40 (1/100) (-1) 1
    7 rfl rfl rfl (by norm_num) rfl

end Halotools
